import Mathlib

/-!
# Verification of the ADI-Stack-Server core against its specification

Shallow Lean embedding of the parts of the ADI-Stack-Server repository that
the checked claims talk about:

* the L1 gas statistics window (`lib/gas_adjuster/src/statistics.rs`),
* the block-replay write-ahead log (`lib/storage/src/db/replay.rs` and the
  `WriteReplay` contract in `lib/storage_api/src/replay.rs`),
* the command source (`node/bin/src/command_source.rs`),
* the batch-verification protocol: signature sets
  (`lib/types/src/batch_signature.rs`), the sequencer-side collector
  (`lib/batch_verification/src/sequencer/component.rs`), the signer client
  (`lib/batch_verification/src/verification_client.rs`) and the v1 wire
  format (`lib/batch_verification/src/wire_format/conversion.rs`).

Machine integers are embedded as `Nat` (all arithmetic the embedded code
performs is on values far below the overflow bounds; where a bound matters
it is an explicit hypothesis).  Panicking code paths are embedded as
`Option`/outcome constructors.
-/

namespace AdiStack

/-! ## Gas statistics (`lib/gas_adjuster/src/statistics.rs`)

`GasStatistics<T>` is a sliding window of fee samples with a cached median.
We instantiate `T` with `Nat` (the code uses `u128`; `T::default() = 0`).
The `VecDeque` is embedded as a `List` whose head is the front (oldest
sample). -/

/-- Insert `x` into an ascending list, keeping it ascending. -/
def insertSorted (x : Nat) : List Nat → List Nat
  | [] => [x]
  | y :: ys => if x ≤ y then x :: y :: ys else y :: insertSorted x ys

/-- The ascending sorted permutation of `l` (insertion sort; the sorted
permutation of a list of naturals is unique, so the choice of algorithm is
immaterial). -/
def sortAsc (l : List Nat) : List Nat := l.foldr insertSorted []

/-- The element of 0-based rank `k` in the ascending sorted order of `l`
(`0` when out of range).  This is the specification of Rust's
`slice::select_nth_unstable(k)`, which the code uses for the median. -/
def rankElement (l : List Nat) (k : Nat) : Nat :=
  (sortAsc l).getD k 0

/-- `GasStatistics<u128>` from `statistics.rs`. -/
structure GasStatistics where
  samples : List Nat
  median_cached : Nat
  max_samples : Nat
  last_processed_block : Nat
deriving Repr, DecidableEq

namespace GasStatistics

/-- `GasStatistics::add_samples`: extend the deque with the new fees, drop
the `extra = len - max_samples` (saturating) oldest samples from the front,
then recompute the cached median as the element of rank `len / 2` of the
retained window (via `select_nth_unstable`); an empty window keeps the old
cached median. -/
def add_samples (s : GasStatistics) (fees : List Nat) : GasStatistics :=
  let samples1 := s.samples ++ fees
  let processed_blocks := fees.length
  let last_processed_block := s.last_processed_block + processed_blocks
  let extra := samples1.length - s.max_samples
  let samples2 := samples1.drop extra
  let median_cached :=
    if samples2.isEmpty then s.median_cached
    else rankElement samples2 (samples2.length / 2)
  { samples := samples2, median_cached, max_samples := s.max_samples,
    last_processed_block }

/-- `GasStatistics::new`: start from an empty window with cached median
`T::default() = 0`, add the fee history, then overwrite
`last_processed_block` with `block`. -/
def new (max_samples block : Nat) (fee_history : List Nat) : GasStatistics :=
  let statistics := add_samples
    { samples := [], median_cached := 0, max_samples,
      last_processed_block := 0 } fee_history
  { statistics with last_processed_block := block }

/-- `GasStatistics::median` returns the cached median. -/
def median (s : GasStatistics) : Nat := s.median_cached

end GasStatistics

/-- The claim's notion of lower median, written from the spec's words for
comparison with the code: the element of rank `⌊(|xs| - 1) / 2⌋` (0-based)
in sorted order. -/
def lowerMedian (xs : List Nat) : Nat :=
  rankElement xs ((xs.length - 1) / 2)

/-! ## Block replay WAL (`lib/storage/src/db/replay.rs`)

The RocksDB column families are embedded as association lists from the
8-byte big-endian block-number key (embedded as the block number itself)
to the deserialized value; a `put` prepends, and `List.lookup` returns the
most recent write, which models RocksDB overwrite semantics.  `bincode`
(de)serialization is the identity in the embedding.  Transactions are
opaque tokens. -/

/-- An opaque L2/L1/upgrade transaction envelope. -/
abbrev Tx := Nat

/-- `BlockContext` (`zksync_os_interface::types::BlockContext`): immutable
per-block execution environment.  The recent-block-hashes array is carried
as a list. -/
structure BlockContext where
  chain_id : Nat
  block_number : Nat
  timestamp : Nat
  eip1559_basefee : Nat
  pubdata_price : Nat
  native_price : Nat
  coinbase : Nat
  gas_limit : Nat
  pubdata_limit : Nat
  mix_hash : Nat
  execution_version : Nat
  block_hashes : List Nat
deriving Repr, DecidableEq

/-- `ReplayRecord` (`zksync_os_storage_api`): the full data needed to
deterministically re-execute one block. -/
structure ReplayRecord where
  block_context : BlockContext
  starting_l1_priority_id : Nat
  transactions : List Tx
  previous_block_timestamp : Nat
  node_version : String
  block_output_hash : Nat
deriving Repr, DecidableEq

/-- `BlockReplayStorage`: the six RocksDB column families of the WAL.
`latestCF` holds the value under the fixed `"latest_block"` key of the
`Latest` CF. -/
structure BlockReplayStorage where
  contextCF : List (Nat × BlockContext)
  startingL1SerialIdCF : List (Nat × Nat)
  txsCF : List (Nat × List Tx)
  nodeVersionCF : List (Nat × String)
  blockOutputHashCF : List (Nat × Nat)
  latestCF : Option Nat
deriving Repr, DecidableEq

namespace BlockReplayStorage

/-- A `put_cf` into one column family: later writes shadow earlier ones. -/
def putCF {α : Type} (cf : List (Nat × α)) (key : Nat) (value : α) :
    List (Nat × α) :=
  (key, value) :: cf

/-- `BlockReplayStorage::append_replay_unchecked`: one atomic write batch
storing the record under all five per-block CFs and updating the `Latest`
pointer. -/
def append_replay_unchecked (s : BlockReplayStorage) (record : ReplayRecord) :
    BlockReplayStorage :=
  let block_num := record.block_context.block_number
  { contextCF := putCF s.contextCF block_num record.block_context
    startingL1SerialIdCF :=
      putCF s.startingL1SerialIdCF block_num record.starting_l1_priority_id
    txsCF := putCF s.txsCF block_num record.transactions
    nodeVersionCF := putCF s.nodeVersionCF block_num record.node_version
    blockOutputHashCF :=
      putCF s.blockOutputHashCF block_num record.block_output_hash
    latestCF := some block_num }

/-- `ReadReplay::get_context` for `BlockReplayStorage`. -/
def get_context (s : BlockReplayStorage) (block_number : Nat) :
    Option BlockContext :=
  s.contextCF.lookup block_number

/-- `ReadReplay::latest_record` for `BlockReplayStorage` (the db impl
returns `Option<BlockNumber>`; `None` on an empty database). -/
def latest_record (s : BlockReplayStorage) : Option Nat :=
  s.latestCF

/-- `ReadReplay::get_replay_record` for `BlockReplayStorage`: `None` when
the `Context` CF has no entry; the other CFs are then `expect`ed to be
present (an absence would panic, embedded as `none`).
`previous_block_timestamp` is `0` for genesis and otherwise the timestamp
of the previous block's context (default `0`). -/
def get_replay_record (s : BlockReplayStorage) (block_number : Nat) :
    Option ReplayRecord :=
  match s.contextCF.lookup block_number with
  | none => none
  | some block_context =>
    match s.startingL1SerialIdCF.lookup block_number,
        s.txsCF.lookup block_number,
        s.nodeVersionCF.lookup block_number,
        s.blockOutputHashCF.lookup block_number with
    | some starting_l1_priority_id, some transactions, some node_version,
        some block_output_hash =>
      let previous_block_timestamp :=
        if block_number = 0 then 0
        else ((get_context s (block_number - 1)).map
          (fun context => context.timestamp)).getD 0
      some ({ block_context := block_context
              starting_l1_priority_id := starting_l1_priority_id
              transactions := transactions
              previous_block_timestamp := previous_block_timestamp
              node_version := node_version
              block_output_hash := block_output_hash } : ReplayRecord)
    | _, _, _, _ => none

/-- `WriteReplay::append` for `BlockReplayStorage`.  The function result is
`none` when the code panics (the `assert!(!record.transactions.is_empty())`
at the top), and otherwise `some (state, appended)`.  The boolean is the
`WriteReplay::append` return value required by the trait
(`lib/storage_api/src/replay.rs`): `false` on the early
already-in-WAL return, `true` after `append_replay_unchecked`. -/
def append (s : BlockReplayStorage) (record : ReplayRecord) :
    Option (BlockReplayStorage × Bool) :=
  if record.transactions.isEmpty then none
  else
    let current_latest_record := (latest_record s).getD 0
    if record.block_context.block_number ≤ current_latest_record then
      some (s, false)
    else
      some (append_replay_unchecked s record, true)

/-- `BlockReplayStorage::new` on an already-opened database: if the WAL is
empty, append the genesis record (empty transactions, zero output hash)
through the unchecked path. -/
def new (db : BlockReplayStorage) (genesis_context : BlockContext)
    (node_version : String) : BlockReplayStorage :=
  if (latest_record db).isNone then
    append_replay_unchecked db
      { block_context := genesis_context
        starting_l1_priority_id := 0
        transactions := []
        previous_block_timestamp := 0
        node_version
        block_output_hash := 0 }
  else db

/-- A freshly created, still-empty database. -/
def emptyDb : BlockReplayStorage :=
  { contextCF := [], startingL1SerialIdCF := [], txsCF := [],
    nodeVersionCF := [], blockOutputHashCF := [], latestCF := none }

end BlockReplayStorage

/-- A concrete block context for test inputs: genesis (block 0). -/
def genesisContext : BlockContext :=
  { chain_id := 270, block_number := 0, timestamp := 0,
    eip1559_basefee := 1000, pubdata_price := 1, native_price := 1,
    coinbase := 0, gas_limit := 30000000, pubdata_limit := 120000,
    mix_hash := 0, execution_version := 1, block_hashes := [] }

/-- The WAL holding only genesis, as produced by initialization on an empty
database. -/
def walGenesisOnly : BlockReplayStorage :=
  BlockReplayStorage.new BlockReplayStorage.emptyDb genesisContext "0.1.0"

/-- A concrete replay record for block `n` carrying one transaction. -/
def sampleRecord (n : Nat) : ReplayRecord :=
  { block_context :=
      ({ genesisContext with block_number := n, timestamp := n } : BlockContext)
    starting_l1_priority_id := 0
    transactions := [7]
    previous_block_timestamp := 0
    node_version := "0.1.0"
    block_output_hash := 0 }

/-- A replay record with an empty transactions list (for block 0). -/
def emptyTxRecord : ReplayRecord :=
  { block_context := genesisContext
    starting_l1_priority_id := 0
    transactions := []
    previous_block_timestamp := 0
    node_version := "0.1.0"
    block_output_hash := 0 }

/-! ## Command source (`node/bin/src/command_source.rs`)

`command_source` consumes the WAL through the `ReadReplay` trait, so the
embedding abstracts the storage behind the trait's two methods.  The
emitted stream is `replay ++ rebuild ++ repeat produce`; the infinite
`Produce` tail is represented by the repeated `ProduceCommand` itself. -/

/-- The `ReadReplay` interface as `command_source` consumes it
(`latest_record` is infallible at the trait level). -/
structure ReadReplayModel where
  latest_record : Nat
  get_replay_record : Nat → Option ReplayRecord

/-- `PartialBlockContext` (`zksync_os_sequencer::model::blocks`): the
context fields a rebuilt block keeps from the original. -/
structure PartialBlockContext where
  timestamp : Nat
  eip1559_basefee : Nat
  pubdata_price : Nat
  native_price : Nat
  execution_version : Nat
deriving Repr, DecidableEq

/-- The `PartialBlockContext` extracted from a replay record's context. -/
def partialContextOf (context : BlockContext) : PartialBlockContext :=
  { timestamp := context.timestamp
    eip1559_basefee := context.eip1559_basefee
    pubdata_price := context.pubdata_price
    native_price := context.native_price
    execution_version := context.execution_version }

/-- The `BTreeMap<PartialBlockContext, VecDeque<ZkTransaction>>` of the
rebuild branch, as an association list. -/
abbrev RebuildMap := List (PartialBlockContext × List Tx)

/-- `map.entry(key).or_default().extend(txs)`: append `txs` to the entry
for `key`, inserting the entry when absent. -/
def insertExtend (map : RebuildMap) (key : PartialBlockContext)
    (txs : List Tx) : RebuildMap :=
  match map with
  | [] => [(key, txs)]
  | (k, ts) :: rest =>
    if k = key then (k, ts ++ txs) :: rest
    else (k, ts) :: insertExtend rest key txs

/-- One step of the rebuild-map construction: fetch block `b`'s record
(`.unwrap()`, panic embedded as `none`) and extend the map entry of its
partial context with the record's transactions. -/
def rebuildStep (wal : ReadReplayModel) (map : RebuildMap) (b : Nat) :
    Option RebuildMap :=
  (wal.get_replay_record b).map
    (fun record =>
      insertExtend map (partialContextOf record.block_context)
        record.transactions)

/-- The rebuild map accumulated over blocks
`block_to_rebuild_from..=last_block_in_wal`. -/
def buildRebuildMap (wal : ReadReplayModel) (rf last : Nat) :
    Option RebuildMap :=
  (List.range' rf (last + 1 - rf)).foldlM (rebuildStep wal) []

/-- `ReadReplayExt::stream_from(start, fin)`: asserts `fin ≤ latest`
(panic embedded as `none`), then yields the records of `start..=fin` in
ascending order, skipping absent ones (`filter_map`). -/
def streamFrom (wal : ReadReplayModel) (start fin : Nat) :
    Option (List ReplayRecord) :=
  if fin ≤ wal.latest_record then
    some ((List.range' start (fin + 1 - start)).filterMap
      wal.get_replay_record)
  else none

/-- A `Produce` command parameter pair. -/
structure ProduceCommand where
  block_time : Nat
  max_transactions_in_block : Nat
deriving Repr, DecidableEq

/-- The stream built by `command_source`: the finite replay prefix, the
rebuild map feeding the rebuild stream, and the `ProduceCommand` repeated
forever after both. -/
structure SourcePlan where
  replay : List ReplayRecord
  rebuildData : RebuildMap
  produce : ProduceCommand
deriving Repr, DecidableEq

/-- `command_source` from `node/bin/src/command_source.rs`.  Each
`assert!` and each `.unwrap()` is embedded as `none`.  With a rebuild
block the asserts are `block_to_start < block_to_rebuild_from` (strict)
and `block_to_rebuild_from ≤ last_block_in_wal`; the replay stream then
ends at `block_to_rebuild_from - 1`. -/
def command_source (wal : ReadReplayModel) (block_to_start : Nat)
    (block_time max_transactions_in_block : Nat)
    (block_to_rebuild_from : Option Nat) : Option SourcePlan :=
  if block_to_start < 1 then none
  else
    let last_block_in_wal := wal.latest_record
    let produce : ProduceCommand :=
      { block_time := block_time
        max_transactions_in_block := max_transactions_in_block }
    match block_to_rebuild_from with
    | some rf =>
      if block_to_start < rf then
        if rf ≤ last_block_in_wal then
          match buildRebuildMap wal rf last_block_in_wal with
          | none => none
          | some data =>
            match streamFrom wal block_to_start (rf - 1) with
            | none => none
            | some replay => some (SourcePlan.mk replay data produce)
        else none
      else none
    | none =>
      match streamFrom wal block_to_start last_block_in_wal with
      | none => none
      | some replay => some (SourcePlan.mk replay [] produce)

/-- Membership of a transaction somewhere in a rebuild map. -/
def txInMap (map : RebuildMap) (tx : Tx) : Prop :=
  ∃ e ∈ map, tx ∈ e.2

/-- A concrete WAL view with records for blocks `0..=2`. -/
def walThree : ReadReplayModel :=
  { latest_record := 2
    get_replay_record := fun n => if n ≤ 2 then some (sampleRecord n) else none }

/-! ## Batch verification protocol

Types from `lib/batch_verification/src` and
`lib/types/src/batch_signature.rs`.  Addresses and 65-byte secp256k1
signatures are opaque tokens; signature recovery
(`alloy`'s `recover_address_from_msg` over the ABI-encoded commit data) is
external cryptography and is abstracted as a recovery-function
parameter. -/

/-- A 20-byte Ethereum address. -/
abbrev Address := Nat

/-- An opaque 65-byte secp256k1 signature. -/
abbrev Sig65 := Nat

/-- `CommitBatchInfo`.  Modelled from the spec: the struct lives in the
`zksync_os_contract_interface` crate, which is not under `src/`; its
fields are taken from the spec's data model together with the
field-by-field comparison in
`lib/batch_verification/src/verification_client.rs` (which reads exactly
these twelve fields).  Numeric fields are `Nat`; `operatorDAInput` is a
byte string. -/
structure CommitBatchInfo where
  batchNumber : Nat
  newStateCommitment : Nat
  numberOfLayer1Txs : Nat
  priorityOperationsHash : Nat
  dependencyRootsRollingHash : Nat
  l2LogsTreeRoot : Nat
  l2DaValidator : Nat
  daCommitment : Nat
  firstBlockTimestamp : Nat
  lastBlockTimestamp : Nat
  chainId : Nat
  operatorDAInput : List Nat
deriving Repr, DecidableEq

/-- `BatchVerificationResult`: a signer either signs or refuses. -/
inductive BatchVerificationResult where
  | Success (signature : Sig65)
  | Refused (reason : String)
deriving Repr, DecidableEq

/-- `BatchVerificationResponse` (client → server). -/
structure BatchVerificationResponse where
  request_id : Nat
  result : BatchVerificationResult
deriving Repr, DecidableEq

/-- `BatchVerificationRequest` (server → client). -/
structure BatchVerificationRequest where
  batch_number : Nat
  first_block_number : Nat
  last_block_number : Nat
  request_id : Nat
  commit_data : CommitBatchInfo
deriving Repr, DecidableEq

/-- `ValidatedBatchSignature`: a signature with its recovered signer.
Equality in the Rust code (`PartialEq`) compares signers only; the
embedding spells that comparison out where it is used. -/
structure ValidatedBatchSignature where
  signature : Sig65
  signer : Address
deriving Repr, DecidableEq

/-- `BatchSignatureSet::push`: reject (`DuplicatedSignature`, embedded as
`none`) when an entry with the same signer is present, else append. -/
def batchSignatureSetPush (set : List ValidatedBatchSignature)
    (signature : ValidatedBatchSignature) :
    Option (List ValidatedBatchSignature) :=
  if set.any (fun w => w.signer == signature.signer) then none
  else some (set ++ [signature])

/-- The abstracted `BatchSignature::verify_signature`: recover the signer
address from a signature over the ABI-encoded commit data (`none` when
recovery fails). -/
abbrev RecoverFn := Sig65 → CommitBatchInfo → Option Address

/-- `BatchVerifier::process_response`: drop refusals, recover the signer,
drop signatures whose signer is not in the accepted-signers list. -/
def process_response (recover : RecoverFn) (accepted_signers : List Address)
    (commit_data : CommitBatchInfo) (response : BatchVerificationResponse) :
    Option ValidatedBatchSignature :=
  match response.result with
  | .Refused _ => none
  | .Success signature =>
    match recover signature commit_data with
    | none => none
    | some signer =>
      if accepted_signers.contains signer then
        some (ValidatedBatchSignature.mk signature signer)
      else none

/-- One observable event on the per-request response channel: a routed
response, the channel closing, or the per-attempt deadline elapsing. -/
inductive CollectEvent where
  | response (r : BatchVerificationResponse)
  | closed
  | deadline
deriving Repr, DecidableEq

/-- The outcome of one `collect_batch_verification_signatures` attempt.
`errSend` is the `Internal` error from a failed broadcast (including
`NotEnoughSigners`, which the server surfaces through the same `?`),
`stillWaiting` represents a run whose event script ended before any
outcome, `panicked` the `tokio::mpsc::channel(0)` panic. -/
inductive CollectOutcome where
  | ok (signatures : List ValidatedBatchSignature)
  | errTimeout
  | errChannelClosed
  | errSend (message : String)
  | stillWaiting
  | panicked
deriving Repr, DecidableEq

/-- Outcomes the Rust code returns as `Err(_)`. -/
def CollectOutcome.isErr : CollectOutcome → Bool
  | .errTimeout => true
  | .errChannelClosed => true
  | .errSend _ => true
  | _ => false

/-- The response-collection loop of
`collect_batch_verification_signatures`: drain events until the deadline
elapses (`Timeout`), the channel closes (`Internal`), or the signature set
reaches the threshold.  Invalid responses and duplicate signers are logged
and skipped. -/
def collectLoop (recover : RecoverFn) (accepted_signers : List Address)
    (commit_data : CommitBatchInfo) (threshold : Nat)
    (responses : List ValidatedBatchSignature) :
    List CollectEvent → CollectOutcome
  | [] => .stillWaiting
  | .deadline :: _ => .errTimeout
  | .closed :: _ => .errChannelClosed
  | .response r :: rest =>
    match process_response recover accepted_signers commit_data r with
    | none => collectLoop recover accepted_signers commit_data threshold
        responses rest
    | some validated_signature =>
      match batchSignatureSetPush responses validated_signature with
      | none => collectLoop recover accepted_signers commit_data threshold
          responses rest
      | some responses2 =>
        if threshold ≤ responses2.length then .ok responses2
        else collectLoop recover accepted_signers commit_data threshold
            responses2 rest

/-- `BatchVerifier::collect_batch_verification_signatures`.  `channels` is
the shared `request_id → response channel` map, embedded as the list of
registered request ids.  Steps, in source order: create the bounded
response channel (`tokio::mpsc::channel(threshold)` panics when
`threshold = 0`), register it under `request_id`, broadcast the request
(`send_error` is the abstracted broadcast failure, early-returned by `?`),
run the collection loop, and remove the channel entry only after the loop
breaks with a full set. -/
def collect_batch_verification_signatures (recover : RecoverFn)
    (threshold : Nat) (accepted_signers : List Address)
    (channels : List Nat) (request_id : Nat) (commit_data : CommitBatchInfo)
    (send_error : Option String) (events : List CollectEvent) :
    CollectOutcome × List Nat :=
  if threshold = 0 then (.panicked, channels)
  else
    let channels1 := request_id :: channels
    match send_error with
    | some e => (.errSend e, channels1)
    | none =>
      match collectLoop recover accepted_signers commit_data threshold []
          events with
      | .ok responses =>
        (.ok responses, channels1.filter (fun id => id != request_id))
      | outcome => (outcome, channels1)

/-- The request-handling step of the batch verification client's `run`
loop (`verification_client.rs`): handle the request (the handler outcome
is abstracted), then write back a response built from the handler result —
the code fills the response's `request_id` field with
`message.batch_number`. -/
def clientHandleMessage
    (handle : BatchVerificationRequest → Except String Sig65)
    (message : BatchVerificationRequest) : BatchVerificationResponse :=
  let batch_number := message.batch_number
  match handle message with
  | .ok signature =>
    BatchVerificationResponse.mk batch_number (.Success signature)
  | .error reason =>
    BatchVerificationResponse.mk batch_number (.Refused reason)

/-- A concrete commit-info value for test inputs. -/
def sampleCommitInfo : CommitBatchInfo :=
  { batchNumber := 8, newStateCommitment := 3, numberOfLayer1Txs := 1,
    priorityOperationsHash := 4, dependencyRootsRollingHash := 5,
    l2LogsTreeRoot := 6, l2DaValidator := 9, daCommitment := 10,
    firstBlockTimestamp := 100, lastBlockTimestamp := 101, chainId := 270,
    operatorDAInput := [1, 2, 3] }

/-- A concrete verification request whose `request_id` (1) differs from
its `batch_number` (7). -/
def sampleRequest : BatchVerificationRequest :=
  { batch_number := 7, first_block_number := 1, last_block_number := 2,
    request_id := 1, commit_data := sampleCommitInfo }

/-! ## The v1 wire format and the commit-data ABI round-trip

`wire_format/conversion.rs` converts a `BatchVerificationRequest` to the
v1 wire struct by ABI-encoding the commit data
(`CommitBatchInfoZKsyncOS::abi_encode`) and back by `abi_decode` (a
decoding failure is an `expect` panic).  The sol-struct itself and the
ABI codec live in the `zksync_os_contract_interface` crate and in `alloy`,
neither of which is under `src/`; the encoding below is modelled from the
spec ("ABI-encodable struct", `commit_data_abi: bytes`): eleven static
head words, the offset word of the single dynamic `bytes` field, then its
length word and its contents right-padded with zeros to a 32-byte
multiple. -/

/-- The `width` big-endian base-256 digits of `n`. -/
def beBytes : Nat → Nat → List Nat
  | 0, _ => []
  | width + 1, n => beBytes width (n / 256) ++ [n % 256]

/-- The natural number denoted by a big-endian byte string. -/
def fromBeBytes (bytes : List Nat) : Nat :=
  bytes.foldl (fun acc b => acc * 256 + b) 0

/-- One 32-byte ABI word. -/
def abiWord (n : Nat) : List Nat := beBytes 32 n

/-- Right-pad a byte string with zeros to a multiple of 32 bytes. -/
def padRight32 (bytes : List Nat) : List Nat :=
  bytes ++ List.replicate ((32 - bytes.length % 32) % 32) 0

/-- The byte string starting at word `i`. -/
def dropWords (bytes : List Nat) (i : Nat) : List Nat :=
  bytes.drop (32 * i)

/-- The 32-byte word at word-index `i`, as a natural number. -/
def readWord (bytes : List Nat) (i : Nat) : Nat :=
  fromBeBytes ((dropWords bytes i).take 32)

/-- Modelled from the spec: the head words of the ABI encoding of
`CommitBatchInfo` — the eleven static fields in declaration order, the
offset of the dynamic `bytes` tail (`12 × 32 = 384`), and the tail's
length word. -/
def abiHeadWords (c : CommitBatchInfo) : List (List Nat) :=
  [abiWord c.batchNumber,
   abiWord c.newStateCommitment,
   abiWord c.numberOfLayer1Txs,
   abiWord c.priorityOperationsHash,
   abiWord c.dependencyRootsRollingHash,
   abiWord c.l2LogsTreeRoot,
   abiWord c.l2DaValidator,
   abiWord c.daCommitment,
   abiWord c.firstBlockTimestamp,
   abiWord c.lastBlockTimestamp,
   abiWord c.chainId,
   abiWord (32 * 12),
   abiWord c.operatorDAInput.length]

/-- Modelled from the spec: `CommitBatchInfoZKsyncOS::abi_encode` — the
thirteen head/tail-prefix words followed by the zero-padded
`operatorDAInput` bytes. -/
def abiEncodeCommitInfo (c : CommitBatchInfo) : List Nat :=
  (abiHeadWords c).foldr (fun a b => a ++ b) (padRight32 c.operatorDAInput)

/-- Modelled from the spec: `CommitBatchInfoZKsyncOS::abi_decode` on a
canonical encoding — check the buffer holds the 13 words, check the
dynamic offset, check the tail holds the announced byte count, then read
every field back. -/
def abiDecodeCommitInfo (bytes : List Nat) : Option CommitBatchInfo :=
  if bytes.length < 32 * 13 then none
  else
    let off := readWord bytes 11
    let len := readWord bytes 12
    if off ≠ 32 * 12 then none
    else if bytes.length < 32 * 13 + len then none
    else
      some { batchNumber := readWord bytes 0
             newStateCommitment := readWord bytes 1
             numberOfLayer1Txs := readWord bytes 2
             priorityOperationsHash := readWord bytes 3
             dependencyRootsRollingHash := readWord bytes 4
             l2LogsTreeRoot := readWord bytes 5
             l2DaValidator := readWord bytes 6
             daCommitment := readWord bytes 7
             firstBlockTimestamp := readWord bytes 8
             lastBlockTimestamp := readWord bytes 9
             chainId := readWord bytes 10
             operatorDAInput := (dropWords bytes 13).take len }

/-- Well-formedness of a commit info as the Solidity types bound it:
`uint64` block/batch scalars, 32-byte hashes and `uint256` counters, a
20-byte validator address, and a byte string. -/
@[reducible]
def CommitBatchInfo.wf (c : CommitBatchInfo) : Prop :=
  c.batchNumber < 2 ^ 64 ∧
  c.newStateCommitment < 2 ^ 256 ∧
  c.numberOfLayer1Txs < 2 ^ 256 ∧
  c.priorityOperationsHash < 2 ^ 256 ∧
  c.dependencyRootsRollingHash < 2 ^ 256 ∧
  c.l2LogsTreeRoot < 2 ^ 256 ∧
  c.l2DaValidator < 2 ^ 160 ∧
  c.daCommitment < 2 ^ 256 ∧
  c.firstBlockTimestamp < 2 ^ 64 ∧
  c.lastBlockTimestamp < 2 ^ 64 ∧
  c.chainId < 2 ^ 256 ∧
  c.operatorDAInput.length < 2 ^ 256 ∧
  ∀ b ∈ c.operatorDAInput, b < 256

/-- The v1 wire struct: the scalar request fields plus the ABI-encoded
commit data. -/
structure BatchVerificationRequestWireFormatV1 where
  batch_number : Nat
  first_block_number : Nat
  last_block_number : Nat
  request_id : Nat
  commit_data : List Nat
deriving Repr, DecidableEq

/-- `From<BatchVerificationRequest> for
BatchVerificationRequestWireFormatV1`: copy the scalars, ABI-encode the
commit data. -/
def wireFormatV1OfRequest (r : BatchVerificationRequest) :
    BatchVerificationRequestWireFormatV1 :=
  { batch_number := r.batch_number
    first_block_number := r.first_block_number
    last_block_number := r.last_block_number
    request_id := r.request_id
    commit_data := abiEncodeCommitInfo r.commit_data }

/-- `From<BatchVerificationRequestWireFormatV1> for
BatchVerificationRequest`: copy the scalars, ABI-decode the commit data
(the `expect` panic on a malformed buffer is embedded as `none`). -/
def requestOfWireFormatV1 (w : BatchVerificationRequestWireFormatV1) :
    Option BatchVerificationRequest :=
  match abiDecodeCommitInfo w.commit_data with
  | none => none
  | some commit_data =>
    some { batch_number := w.batch_number
           first_block_number := w.first_block_number
           last_block_number := w.last_block_number
           request_id := w.request_id
           commit_data := commit_data }

end AdiStack

namespace AdiStack

/-- Claim C3, counterexample: with `max_samples = 2` and `xs = [1, 2]`
(nonempty, `|xs| ≤ max_samples`) the code's median is `2`, the larger of
the two middle elements, not the lower median `1` claimed by the spec. -/
theorem claim_C3_counterexample :
    ¬ (GasStatistics.new 2 0 [1, 2]).median = lowerMedian [1, 2] := by
  decide

/-- Claim C3 (amended): for every `max_samples`, every nonempty `xs` with
`|xs| ≤ max_samples`, `GasStatistics::new(max_samples, _, xs).median()`
equals the element of 0-based rank `⌊|xs| / 2⌋` of `xs` in sorted order —
the upper median for even `|xs|`, not the lower one. -/
theorem claim_C3_amended (max b : Nat) (xs : List Nat) (hne : xs ≠ [])
    (hlen : xs.length ≤ max) :
    (GasStatistics.new max b xs).median = rankElement xs (xs.length / 2) := by
  unfold GasStatistics.new GasStatistics.add_samples GasStatistics.median
  simp [Nat.sub_eq_zero_of_le hlen, List.isEmpty_iff, hne]

/-- Claim C3, witness: the amended theorem applied at `max_samples = 3`,
`xs = [5, 1, 9]`. -/
theorem claim_C3_witness :
    ([5, 1, 9] : List Nat) ≠ [] ∧ ([5, 1, 9] : List Nat).length ≤ 3 ∧
      (GasStatistics.new 3 0 [5, 1, 9]).median = rankElement [5, 1, 9] 1 :=
  ⟨by decide, by decide, claim_C3_amended 3 0 [5, 1, 9] (by decide) (by decide)⟩

/-- Claim C6, counterexample: starting from `new(5, 5, [6,4,7,8,4])`
(window `[6,4,7,8,4]`) and adding `[18,18,18]`, the retained window is
`[8,4,18,18,18]`, not the `[4,5,18,18,18]` the spec claims (that window
arises from the test's actual initial history `[6,4,7,8,4,5]`). -/
theorem claim_C6_counterexample :
    ¬ ((GasStatistics.new 5 5 [6, 4, 7, 8, 4]).median = 6 ∧
        ((GasStatistics.new 5 5 [6, 4, 7, 8, 4]).add_samples
            [18, 18, 18]).samples = [4, 5, 18, 18, 18] ∧
        ((GasStatistics.new 5 5 [6, 4, 7, 8, 4]).add_samples
            [18, 18, 18]).median = 18) := by
  decide

/-- Claim C6 (amended): `new(5, 5, [6,4,7,8,4]).median() = 6`; after
`add_samples([18,18,18])` the retained window is `[8,4,18,18,18]` and the
median is `18`. -/
theorem claim_C6_amended :
    (GasStatistics.new 5 5 [6, 4, 7, 8, 4]).median = 6 ∧
      ((GasStatistics.new 5 5 [6, 4, 7, 8, 4]).add_samples
          [18, 18, 18]).samples = [8, 4, 18, 18, 18] ∧
      ((GasStatistics.new 5 5 [6, 4, 7, 8, 4]).add_samples
          [18, 18, 18]).median = 18 := by
  decide

/-- Claim C1, evaluation at the failing input: with the WAL holding only
genesis (`latest_record = 0`), appending a record for block `2`
(`2 ≠ latest_record + 1`) does not panic: it silently appends, and
`latest_record` jumps to `2`.  The `WriteReplay` trait documentation
requires a panic here; the implementation has no such check. -/
theorem claim_C1_code_bug_eval :
    walGenesisOnly.latest_record = some 0 ∧
      (walGenesisOnly.append (sampleRecord 2)).map
          (fun p => (p.1.latest_record, p.2)) = some (some 2, true) := by
  decide

/-- Claim C2, counterexample: for the record with block number
`0 ≤ latest_record()` but an empty transactions list, `append` panics on
`assert!(!record.transactions.is_empty())` instead of returning `false`. -/
theorem claim_C2_counterexample :
    emptyTxRecord.block_context.block_number ≤
        walGenesisOnly.latest_record.getD 0 ∧
      ¬ walGenesisOnly.append emptyTxRecord = some (walGenesisOnly, false) := by
  decide

/-- Claim C2 (amended): for every record `r` with a nonempty transactions
list and `r.block_context.block_number ≤ latest_record()`, `append r`
returns `false` and leaves the WAL unchanged: `latest_record`,
`get_context n` and `get_replay_record n` are unchanged for every `n`. -/
theorem claim_C2_amended (s : BlockReplayStorage) (r : ReplayRecord)
    (htx : r.transactions ≠ [])
    (hle : r.block_context.block_number ≤ s.latest_record.getD 0) :
    ∃ s2, s.append r = some (s2, false) ∧
      s2.latest_record = s.latest_record ∧
      (∀ n, s2.get_context n = s.get_context n) ∧
      (∀ n, s2.get_replay_record n = s.get_replay_record n) := by
  refine ⟨s, ?_, rfl, fun n => rfl, fun n => rfl⟩
  unfold BlockReplayStorage.append
  simp [List.isEmpty_iff, htx, hle]

/-- Claim C2, witness: the amended theorem applied to the genesis-only WAL
and a one-transaction record for block `0`. -/
theorem claim_C2_witness :
    ∃ s2, walGenesisOnly.append (sampleRecord 0) = some (s2, false) ∧
      s2.latest_record = walGenesisOnly.latest_record ∧
      (∀ n, s2.get_context n = walGenesisOnly.get_context n) ∧
      (∀ n, s2.get_replay_record n = walGenesisOnly.get_replay_record n) :=
  claim_C2_amended walGenesisOnly (sampleRecord 0) (by decide) (by decide)

/-- Claim C9: `append` panics (the assertion on a nonempty transactions
list) for every record with no transactions, whatever its block number;
and the genesis record, written through the internal unchecked path during
initialization, is stored with an empty transactions list. -/
theorem claim_C9_empty_txs_panic (s : BlockReplayStorage) (r : ReplayRecord)
    (h : r.transactions = []) :
    s.append r = none ∧
      (walGenesisOnly.get_replay_record 0).map
          (fun record => record.transactions) = some [] := by
  refine ⟨?_, by decide⟩
  unfold BlockReplayStorage.append
  simp [h]

/-- Claim C9, witness: the theorem applied to the genesis-only WAL and the
concrete empty-transactions record. -/
theorem claim_C9_witness :
    walGenesisOnly.append emptyTxRecord = none ∧
      (walGenesisOnly.get_replay_record 0).map
          (fun record => record.transactions) = some [] :=
  claim_C9_empty_txs_panic walGenesisOnly emptyTxRecord rfl

/-- `insertExtend` stores every new transaction. -/
theorem txInMap_insertExtend_new (map : RebuildMap)
    (key : PartialBlockContext) (txs : List Tx) (tx : Tx) (h : tx ∈ txs) :
    txInMap (insertExtend map key txs) tx := by
  induction map with
  | nil => exact ⟨(key, txs), by simp [insertExtend], h⟩
  | cons e rest ih =>
    obtain ⟨k, ts⟩ := e
    unfold insertExtend
    by_cases hk : k = key
    · exact ⟨(k, ts ++ txs), by simp [if_pos hk],
        List.mem_append_right _ h⟩
    · obtain ⟨e2, he2, hmem⟩ := ih
      exact ⟨e2, by simp only [if_neg hk]; exact List.mem_cons_of_mem _ he2,
        hmem⟩

/-- `insertExtend` keeps every transaction already in the map. -/
theorem txInMap_insertExtend_mono (map : RebuildMap)
    (key : PartialBlockContext) (txs : List Tx) (tx : Tx)
    (h : txInMap map tx) : txInMap (insertExtend map key txs) tx := by
  induction map with
  | nil =>
    obtain ⟨e, he, _⟩ := h
    simp at he
  | cons e0 rest ih =>
    obtain ⟨k, ts⟩ := e0
    obtain ⟨e, he, hmem⟩ := h
    unfold insertExtend
    by_cases hk : k = key
    · rcases List.mem_cons.mp he with heq | hrest
      · subst heq
        exact ⟨(k, ts ++ txs), by simp [if_pos hk],
          List.mem_append_left _ hmem⟩
      · exact ⟨e, by simp only [if_pos hk]; exact List.mem_cons_of_mem _ hrest,
          hmem⟩
    · rcases List.mem_cons.mp he with heq | hrest
      · subst heq
        exact ⟨(k, ts), by simp [if_neg hk], hmem⟩
      · obtain ⟨e2, he2, hm2⟩ := ih ⟨e, hrest, hmem⟩
        exact ⟨e2, by simp only [if_neg hk]; exact List.mem_cons_of_mem _ he2,
          hm2⟩

/-- The rebuild-map fold succeeds on a block list whose records are all
present, keeps everything already in the accumulator, and stores every
transaction of every listed block. -/
theorem rebuildFold_spec (wal : ReadReplayModel) :
    ∀ (blocks : List Nat) (map0 : RebuildMap),
      (∀ b ∈ blocks, (wal.get_replay_record b).isSome = true) →
      ∃ m, List.foldlM (rebuildStep wal) map0 blocks = some m ∧
        (∀ tx, txInMap map0 tx → txInMap m tx) ∧
        (∀ b ∈ blocks, ∀ record, wal.get_replay_record b = some record →
          ∀ tx ∈ record.transactions, txInMap m tx) := by
  intro blocks
  induction blocks with
  | nil =>
    intro map0 _
    exact ⟨map0, rfl, fun tx h => h, by simp⟩
  | cons b bs ih =>
    intro map0 htot
    have hb : (wal.get_replay_record b).isSome = true :=
      htot b (List.mem_cons_self _ _)
    obtain ⟨record, hrec⟩ := Option.isSome_iff_exists.mp hb
    have hstep : rebuildStep wal map0 b =
        some (insertExtend map0 (partialContextOf record.block_context)
          record.transactions) := by
      unfold rebuildStep
      rw [hrec]
      rfl
    obtain ⟨m, hfold, hmono, hcov⟩ :=
      ih (insertExtend map0 (partialContextOf record.block_context)
          record.transactions)
        (fun x hx => htot x (List.mem_cons_of_mem _ hx))
    refine ⟨m, ?_, ?_, ?_⟩
    · rw [List.foldlM_cons, hstep]
      simpa using hfold
    · intro tx h
      exact hmono tx (txInMap_insertExtend_mono _ _ _ _ h)
    · intro b2 hb2 record2 hrec2 tx htx
      rcases List.mem_cons.mp hb2 with heq | hmem
      · subst heq
        rw [hrec] at hrec2
        injection hrec2 with h2
        subst h2
        exact hmono tx (txInMap_insertExtend_new _ _ _ _ htx)
      · exact hcov b2 hmem record2 hrec2 tx htx

/-- Claim C7, counterexample: at the boundary `block_to_start =
rebuild_from = 1` (with `1 ≤ latest_record = 2`, so the claim's
hypothesis holds) the command source panics on
`assert!(block_to_start < block_to_rebuild_from)` instead of producing a
stream. -/
theorem claim_C7_counterexample :
    (1 : Nat) ≤ 1 ∧ 1 ≤ walThree.latest_record ∧
      command_source walThree 1 100 1000 (some 1) = none :=
  ⟨Nat.le_refl 1, by decide, rfl⟩

/-- Claim C7 (amended): for every `(block_to_start, rebuild_from)` with
`1 ≤ block_to_start < rebuild_from ≤ latest_record()` (the code enforces
the strict inequality and panics at `block_to_start = rebuild_from`), the
command source succeeds and its rebuild stream covers
`[rebuild_from, latest_record]`: every transaction of every record in
that range is in the rebuild data. -/
theorem claim_C7_amended (wal : ReadReplayModel) (bts rf bt mt : Nat)
    (h1 : 1 ≤ bts) (h2 : bts < rf) (h3 : rf ≤ wal.latest_record)
    (htot : ∀ b, b ≤ wal.latest_record →
      (wal.get_replay_record b).isSome = true) :
    ∃ plan, command_source wal bts bt mt (some rf) = some plan ∧
      ∀ b, rf ≤ b → b ≤ wal.latest_record →
        ∀ record, wal.get_replay_record b = some record →
          ∀ tx ∈ record.transactions, txInMap plan.rebuildData tx := by
  obtain ⟨m, hm, -, hcov⟩ :=
    rebuildFold_spec wal (List.range' rf (wal.latest_record + 1 - rf)) []
      (fun b hb => by
        have hb2 := List.mem_range'_1.mp hb
        exact htot b (by omega))
  have hcs : command_source wal bts bt mt (some rf) =
      some { replay := (List.range' bts (rf - 1 + 1 - bts)).filterMap
               wal.get_replay_record
             rebuildData := m
             produce := { block_time := bt
                          max_transactions_in_block := mt } } := by
    unfold command_source
    rw [if_neg (by omega : ¬ bts < 1)]
    dsimp only
    rw [if_pos h2, if_pos h3]
    unfold buildRebuildMap
    rw [hm]
    unfold streamFrom
    rw [if_pos (show rf - 1 ≤ wal.latest_record by omega)]
  refine ⟨_, hcs, ?_⟩
  intro b hrfb hble record hrec tx htx
  exact hcov b (List.mem_range'_1.mpr ⟨hrfb, by omega⟩) record hrec tx htx

/-- Claim C7, witness: the amended theorem applied to the three-block WAL
with `block_to_start = 1`, `rebuild_from = 2`. -/
theorem claim_C7_witness :
    ∃ plan, command_source walThree 1 100 1000 (some 2) = some plan ∧
      ∀ b, 2 ≤ b → b ≤ walThree.latest_record →
        ∀ record, walThree.get_replay_record b = some record →
          ∀ tx ∈ record.transactions, txInMap plan.rebuildData tx :=
  claim_C7_amended walThree 1 2 100 1000 (by decide) (by decide) (by decide)
    (fun b hb => by
      simp only [walThree] at hb ⊢
      rw [if_pos hb]
      rfl)

/-- Claim C4, evaluation at the failing input: for the request with
`request_id = 1` and `batch_number = 7`, the client's written response
carries `request_id = 7` — the request's `batch_number`, not its
`request_id` — on both the success and the refusal path. -/
theorem claim_C4_code_bug_eval :
    sampleRequest.request_id = 1 ∧
      (clientHandleMessage (fun _ => .ok 5) sampleRequest).request_id = 7 ∧
      (clientHandleMessage (fun _ => .error "Missing records for block 3")
          sampleRequest).request_id = 7 := by
  decide

/-- A successful `BatchSignatureSet::push` appends the entry and certifies
that no existing entry shares its signer. -/
theorem batchSignatureSetPush_some (set : List ValidatedBatchSignature)
    (v : ValidatedBatchSignature) (out : List ValidatedBatchSignature)
    (h : batchSignatureSetPush set v = some out) :
    out = set ++ [v] ∧ ∀ w ∈ set, w.signer ≠ v.signer := by
  unfold batchSignatureSetPush at h
  cases hdup : set.any (fun w => w.signer == v.signer) with
  | true =>
    rw [hdup] at h
    simp at h
  | false =>
    rw [hdup] at h
    simp only [Bool.false_eq_true, if_false, Option.some.injEq] at h
    refine ⟨h.symm, ?_⟩
    intro w hw
    have := List.any_eq_false.mp hdup w hw
    simpa using this

/-- Every set the collection loop completes with has pairwise-distinct
signers and at most `threshold` entries, provided the accumulator does. -/
theorem collectLoop_ok_spec (recover : RecoverFn)
    (accepted_signers : List Address) (commit_data : CommitBatchInfo)
    (threshold : Nat) :
    ∀ (events : List CollectEvent)
      (responses : List ValidatedBatchSignature),
      responses.Pairwise (fun a b => a.signer ≠ b.signer) →
      responses.length < threshold →
      ∀ out, collectLoop recover accepted_signers commit_data threshold
          responses events = .ok out →
        out.Pairwise (fun a b => a.signer ≠ b.signer) ∧
          out.length ≤ threshold := by
  intro events
  induction events with
  | nil =>
    intro responses _ _ out h
    exact absurd h (by simp [collectLoop])
  | cons e rest ih =>
    intro responses hpw hlen out h
    match e with
    | .deadline => exact absurd h (by simp [collectLoop])
    | .closed => exact absurd h (by simp [collectLoop])
    | .response r =>
      rcases hp : process_response recover accepted_signers commit_data r with
        _ | v
      · simp only [collectLoop, hp] at h
        exact ih responses hpw hlen out h
      · rcases hpush : batchSignatureSetPush responses v with _ | responses2
        · simp only [collectLoop, hp, hpush] at h
          exact ih responses hpw hlen out h
        · simp only [collectLoop, hp, hpush] at h
          obtain ⟨heq, hdistinct⟩ := batchSignatureSetPush_some _ _ _ hpush
          have hpw2 : responses2.Pairwise (fun a b => a.signer ≠ b.signer) := by
            subst heq
            refine List.pairwise_append.mpr ⟨hpw, by simp, ?_⟩
            intro a ha b hb
            simp only [List.mem_singleton] at hb
            subst hb
            exact hdistinct a ha
          by_cases hth : threshold ≤ responses2.length
          · rw [if_pos hth] at h
            injection h with h2
            subst h2
            refine ⟨hpw2, ?_⟩
            subst heq
            simp only [List.length_append, List.length_singleton]
            omega
          · rw [if_neg hth] at h
            exact ih responses2 hpw2 (by omega) out h

/-- Claim C5: whenever a verification attempt returns a signature set
successfully, the set has no two entries with the same signer address and
its length is at most the configured threshold. -/
theorem claim_C5_signer_unique_and_bounded (recover : RecoverFn)
    (threshold : Nat) (accepted_signers : List Address)
    (channels : List Nat) (request_id : Nat) (commit_data : CommitBatchInfo)
    (send_error : Option String) (events : List CollectEvent)
    (sigs : List ValidatedBatchSignature) (channels2 : List Nat)
    (h : collect_batch_verification_signatures recover threshold
        accepted_signers channels request_id commit_data send_error events =
      (.ok sigs, channels2)) :
    sigs.Pairwise (fun a b => a.signer ≠ b.signer) ∧
      sigs.length ≤ threshold := by
  unfold collect_batch_verification_signatures at h
  by_cases hth : threshold = 0
  · rw [if_pos hth] at h
    simp at h
  · rw [if_neg hth] at h
    dsimp only at h
    rcases hsend : send_error with _ | e
    · rw [hsend] at h
      rcases hloop : collectLoop recover accepted_signers commit_data
          threshold [] events with out | _ | _ | m | _ | _ <;>
        simp only [hloop] at h
      · have hspec := collectLoop_ok_spec recover accepted_signers
          commit_data threshold events [] (by simp)
          (by simpa using Nat.pos_of_ne_zero hth) out hloop
        injection h with h1 h2
        injection h1 with h3
        exact h3 ▸ hspec
      · exact absurd h (by simp)
      · exact absurd h (by simp)
      · exact absurd h (by simp)
      · exact absurd h (by simp)
      · exact absurd h (by simp)
    · rw [hsend] at h
      exact absurd h (by simp)

/-- Claim C5, witness: a run at threshold 1 with a single valid response
(signer `7`, accepted) returns the singleton set. -/
theorem claim_C5_witness :
    ([ValidatedBatchSignature.mk 0 7]).Pairwise
        (fun a b => a.signer ≠ b.signer) ∧
      ([ValidatedBatchSignature.mk 0 7]).length ≤ 1 :=
  claim_C5_signer_unique_and_bounded (fun _ _ => some 7) 1 [7] [] 1
    sampleCommitInfo none
    [CollectEvent.response (BatchVerificationResponse.mk 1
      (BatchVerificationResult.Success 0))]
    [ValidatedBatchSignature.mk 0 7] [] (by decide)

/-- Claim C10: the per-request channel entry is removed from the shared
map only on the success path; whenever the attempt returns an error
(timeout, channel closed, failed broadcast), `request_id` is still
registered. -/
theorem claim_C10_channel_cleanup (recover : RecoverFn) (threshold : Nat)
    (accepted_signers : List Address) (channels : List Nat)
    (request_id : Nat) (commit_data : CommitBatchInfo)
    (send_error : Option String) (events : List CollectEvent)
    (out : CollectOutcome) (channels2 : List Nat)
    (h : collect_batch_verification_signatures recover threshold
        accepted_signers channels request_id commit_data send_error events =
      (out, channels2)) :
    (out.isErr = true → request_id ∈ channels2) ∧
      (∀ sigs, out = .ok sigs → request_id ∉ channels2) := by
  unfold collect_batch_verification_signatures at h
  by_cases hth : threshold = 0
  · rw [if_pos hth] at h
    injection h with h1 h2
    subst h1
    subst h2
    constructor
    · intro hc
      simp [CollectOutcome.isErr] at hc
    · intro sigs hc
      simp at hc
  · rw [if_neg hth] at h
    dsimp only at h
    rcases hsend : send_error with _ | e
    · rw [hsend] at h
      rcases hloop : collectLoop recover accepted_signers commit_data
          threshold [] events with sigs0 | _ | _ | m | _ | _ <;>
          simp only [hloop] at h <;> injection h with h1 h2 <;>
          subst h1 <;> subst h2
      · constructor
        · intro hc
          simp [CollectOutcome.isErr] at hc
        · intro sigs _
          simp [List.mem_filter]
      · exact ⟨fun _ => List.mem_cons_self _ _, fun sigs hc => by simp at hc⟩
      · exact ⟨fun _ => List.mem_cons_self _ _, fun sigs hc => by simp at hc⟩
      · exact ⟨fun _ => List.mem_cons_self _ _, fun sigs hc => by simp at hc⟩
      · exact ⟨fun _ => List.mem_cons_self _ _, fun sigs hc => by simp at hc⟩
      · exact ⟨fun _ => List.mem_cons_self _ _, fun sigs hc => by simp at hc⟩
    · rw [hsend] at h
      injection h with h1 h2
      subst h1
      subst h2
      constructor
      · intro _
        exact List.mem_cons_self _ _
      · intro sigs hc
        simp at hc

/-- Claim C10, witness: a timed-out attempt (single `deadline` event) at
`request_id = 5` leaves `5` registered. -/
theorem claim_C10_witness :
    (CollectOutcome.errTimeout.isErr = true → 5 ∈ [5]) ∧
      (∀ sigs, CollectOutcome.errTimeout = .ok sigs → 5 ∉ [5]) :=
  claim_C10_channel_cleanup (fun _ _ => none) 1 [] [] 5 sampleCommitInfo
    none [CollectEvent.deadline] CollectOutcome.errTimeout [5] (by decide)

/-- `beBytes` produces exactly `width` digits. -/
theorem beBytes_length (width n : Nat) : (beBytes width n).length = width := by
  induction width generalizing n with
  | zero => rfl
  | succ w ih => simp [beBytes, ih]

/-- An ABI word is 32 bytes. -/
theorem abiWord_length (n : Nat) : (abiWord n).length = 32 :=
  beBytes_length 32 n

/-- Reading back big-endian digits recovers the value modulo the width. -/
theorem fromBeBytes_beBytes (width n : Nat) :
    fromBeBytes (beBytes width n) = n % 256 ^ width := by
  induction width generalizing n with
  | zero => simp [beBytes, fromBeBytes, Nat.mod_one]
  | succ w ih =>
    rw [beBytes]
    unfold fromBeBytes
    rw [List.foldl_append]
    show fromBeBytes (beBytes w (n / 256)) * 256 + n % 256 = n % 256 ^ (w + 1)
    rw [ih]
    have h2 : (256 : Nat) ^ (w + 1) = 256 * 256 ^ w := by ring
    rw [h2, Nat.mod_mul]
    omega

/-- Reading back a word recovers any value below `2 ^ 256`. -/
theorem fromBe_abiWord (n : Nat) (h : n < 2 ^ 256) :
    fromBeBytes (abiWord n) = n := by
  unfold abiWord
  rw [fromBeBytes_beBytes]
  have h32 : (256 : Nat) ^ 32 = 2 ^ 256 := by norm_num
  exact Nat.mod_eq_of_lt (h32 ▸ h)

/-- Dropping `i + 1` words of a 32-byte chunk followed by a rest drops
`i` words of the rest. -/
theorem dropWords_chunk (w rest : List Nat) (h : w.length = 32) (i : Nat) :
    dropWords (w ++ rest) (i + 1) = dropWords rest i := by
  unfold dropWords
  have h2 : 32 * (i + 1) = 32 + 32 * i := by ring
  rw [h2, ← List.drop_drop, List.drop_left' h]

/-- The word at index 0 of a 32-byte chunk followed by a rest. -/
theorem readWord_chunk_zero (w rest : List Nat) (h : w.length = 32) :
    readWord (w ++ rest) 0 = fromBeBytes w := by
  unfold readWord dropWords
  rw [Nat.mul_zero, List.drop_zero, List.take_left' h]

/-- Reading word `i + 1` of a 32-byte chunk followed by a rest reads word
`i` of the rest. -/
theorem readWord_chunk_succ (w rest : List Nat) (h : w.length = 32)
    (i : Nat) : readWord (w ++ rest) (i + 1) = readWord rest i := by
  unfold readWord
  rw [dropWords_chunk w rest h i]

/-- Reading word `i` of a concatenation of 32-byte chunks yields chunk
`i`. -/
theorem readWord_foldr :
    ∀ (chunks : List (List Nat)) (rest : List Nat) (i : Nat),
      (∀ ch ∈ chunks, ch.length = 32) → i < chunks.length →
      readWord (chunks.foldr (fun a b => a ++ b) rest) i =
        fromBeBytes (chunks.getD i []) := by
  intro chunks
  induction chunks with
  | nil =>
    intro rest i _ hi
    simp at hi
  | cons w ws ih =>
    intro rest i hall hi
    rw [List.foldr_cons]
    cases i with
    | zero =>
      rw [readWord_chunk_zero _ _ (hall w (List.mem_cons_self _ _))]
      rfl
    | succ j =>
      rw [readWord_chunk_succ _ _ (hall w (List.mem_cons_self _ _)) j]
      exact ih rest j (fun ch hch => hall ch (List.mem_cons_of_mem _ hch))
        (by simp at hi; omega)

/-- Dropping as many words as there are 32-byte chunks leaves the rest. -/
theorem dropWords_foldr :
    ∀ (chunks : List (List Nat)) (rest : List Nat),
      (∀ ch ∈ chunks, ch.length = 32) →
      dropWords (chunks.foldr (fun a b => a ++ b) rest) chunks.length =
        rest := by
  intro chunks
  induction chunks with
  | nil =>
    intro rest _
    simp [dropWords]
  | cons w ws ih =>
    intro rest hall
    rw [List.foldr_cons, List.length_cons,
      dropWords_chunk _ _ (hall w (List.mem_cons_self _ _)) ws.length]
    exact ih rest (fun ch hch => hall ch (List.mem_cons_of_mem _ hch))

/-- Length of a concatenation of 32-byte chunks and a rest. -/
theorem foldr_append_length :
    ∀ (chunks : List (List Nat)) (rest : List Nat),
      (∀ ch ∈ chunks, ch.length = 32) →
      (chunks.foldr (fun a b => a ++ b) rest).length =
        32 * chunks.length + rest.length := by
  intro chunks
  induction chunks with
  | nil =>
    intro rest _
    simp
  | cons w ws ih =>
    intro rest hall
    rw [List.foldr_cons, List.length_append,
      hall w (List.mem_cons_self _ _),
      ih rest (fun ch hch => hall ch (List.mem_cons_of_mem _ hch)),
      List.length_cons]
    ring

/-- Every head word of the encoding is 32 bytes. -/
theorem abiHeadWords_all32 (c : CommitBatchInfo) :
    ∀ ch ∈ abiHeadWords c, ch.length = 32 := by
  intro ch hch
  simp only [abiHeadWords, List.mem_cons, List.not_mem_nil, or_false] at hch
  rcases hch with h | h | h | h | h | h | h | h | h | h | h | h | h <;>
    rw [h, abiWord_length]

/-- The encoding is the 13 words followed by the padded tail. -/
theorem abiEncode_length (c : CommitBatchInfo) :
    (abiEncodeCommitInfo c).length =
      32 * 13 + (padRight32 c.operatorDAInput).length := by
  unfold abiEncodeCommitInfo
  rw [foldr_append_length _ _ (abiHeadWords_all32 c)]
  rfl

/-- Padding only adds bytes. -/
theorem padRight32_length_ge (l : List Nat) :
    l.length ≤ (padRight32 l).length := by
  simp [padRight32]

/-- Reading head word `i` of the encoding recovers the value it was built
from. -/
theorem readWord_encode (c : CommitBatchInfo) (i x : Nat)
    (hgd : (abiHeadWords c).getD i [] = abiWord x) (hi : i < 13)
    (hx : x < 2 ^ 256) : readWord (abiEncodeCommitInfo c) i = x := by
  unfold abiEncodeCommitInfo
  rw [readWord_foldr (abiHeadWords c) _ i (abiHeadWords_all32 c) hi, hgd,
    fromBe_abiWord x hx]

/-- Decoding a canonical encoding of a well-formed commit info recovers
every field. -/
theorem abiDecode_abiEncode (c : CommitBatchInfo) (h : c.wf) :
    abiDecodeCommitInfo (abiEncodeCommitInfo c) = some c := by
  obtain ⟨h1, h2, h3, h4, h5, h6, h7, h8, h9, h10, h11, h12, -⟩ := h
  have e64 : (2 : Nat) ^ 64 ≤ 2 ^ 256 := by norm_num
  have e160 : (2 : Nat) ^ 160 ≤ 2 ^ 256 := by norm_num
  have hr0 : readWord (abiEncodeCommitInfo c) 0 = c.batchNumber :=
    readWord_encode c 0 _ rfl (by norm_num) (lt_of_lt_of_le h1 e64)
  have hr1 : readWord (abiEncodeCommitInfo c) 1 = c.newStateCommitment :=
    readWord_encode c 1 _ rfl (by norm_num) h2
  have hr2 : readWord (abiEncodeCommitInfo c) 2 = c.numberOfLayer1Txs :=
    readWord_encode c 2 _ rfl (by norm_num) h3
  have hr3 : readWord (abiEncodeCommitInfo c) 3 = c.priorityOperationsHash :=
    readWord_encode c 3 _ rfl (by norm_num) h4
  have hr4 : readWord (abiEncodeCommitInfo c) 4 =
      c.dependencyRootsRollingHash :=
    readWord_encode c 4 _ rfl (by norm_num) h5
  have hr5 : readWord (abiEncodeCommitInfo c) 5 = c.l2LogsTreeRoot :=
    readWord_encode c 5 _ rfl (by norm_num) h6
  have hr6 : readWord (abiEncodeCommitInfo c) 6 = c.l2DaValidator :=
    readWord_encode c 6 _ rfl (by norm_num) (lt_of_lt_of_le h7 e160)
  have hr7 : readWord (abiEncodeCommitInfo c) 7 = c.daCommitment :=
    readWord_encode c 7 _ rfl (by norm_num) h8
  have hr8 : readWord (abiEncodeCommitInfo c) 8 = c.firstBlockTimestamp :=
    readWord_encode c 8 _ rfl (by norm_num) (lt_of_lt_of_le h9 e64)
  have hr9 : readWord (abiEncodeCommitInfo c) 9 = c.lastBlockTimestamp :=
    readWord_encode c 9 _ rfl (by norm_num) (lt_of_lt_of_le h10 e64)
  have hr10 : readWord (abiEncodeCommitInfo c) 10 = c.chainId :=
    readWord_encode c 10 _ rfl (by norm_num) h11
  have hr11 : readWord (abiEncodeCommitInfo c) 11 = 32 * 12 :=
    readWord_encode c 11 _ rfl (by norm_num) (by norm_num)
  have hr12 : readWord (abiEncodeCommitInfo c) 12 =
      c.operatorDAInput.length :=
    readWord_encode c 12 _ rfl (by norm_num) h12
  have hdrop : dropWords (abiEncodeCommitInfo c) 13 =
      padRight32 c.operatorDAInput :=
    dropWords_foldr (abiHeadWords c) _ (abiHeadWords_all32 c)
  have hlen := abiEncode_length c
  have hpad := padRight32_length_ge c.operatorDAInput
  have htake : (padRight32 c.operatorDAInput).take
      c.operatorDAInput.length = c.operatorDAInput := by
    unfold padRight32
    exact List.take_left' rfl
  unfold abiDecodeCommitInfo
  rw [if_neg (by omega)]
  dsimp only
  rw [hr11, hr12, if_neg (by simp), if_neg (by omega),
    hr0, hr1, hr2, hr3, hr4, hr5, hr6, hr7, hr8, hr9, hr10, hdrop, htake]

/-- Claim C8: converting a request into the v1 wire format (ABI-encoding
its commit data) and converting the wire form back yields the same
request; in particular the decoded commit data equals the original in
every field. -/
theorem claim_C8_wire_roundtrip (r : BatchVerificationRequest)
    (h : r.commit_data.wf) :
    requestOfWireFormatV1 (wireFormatV1OfRequest r) = some r := by
  unfold requestOfWireFormatV1 wireFormatV1OfRequest
  dsimp only
  rw [abiDecode_abiEncode r.commit_data h]

/-- Claim C8, witness: the round-trip at the concrete sample request. -/
theorem claim_C8_witness :
    sampleRequest.commit_data.wf ∧
      requestOfWireFormatV1 (wireFormatV1OfRequest sampleRequest) =
        some sampleRequest :=
  ⟨by decide, claim_C8_wire_roundtrip sampleRequest (by decide)⟩

end AdiStack
